import Mathlib

/-!
Verification of the ethermint-proxy hash-translation bridge.

The development shallowly embeds the final draft of the proxy
(walkChain, the steady-state polling loop, the badger-backed lookup
helpers tmHashLookup and ethHashLookup, and the query service methods
GetBlockByNumber and GetBlockByHash), together with the write set of the
earlier draft of walkChain in main.go whose native-to-canonical Set call
is commented out.

Modelling conventions:
- a 32-byte hash is a Nat; the byte representation of a hash is the hash
  itself;
- store keys carry their namespace structurally: Key.tm h is the byte key
  tendermint-prefix ++ h, Key.eth h is ethereum-prefix ++ h, Key.raw h is
  the unprefixed key used by the main.go draft, and Key.height is the
  literal "height" key; the decimal string stored under "height" is
  modelled as the Nat it denotes (strconv.Itoa / Atoi round-trip);
- the badger store is an association list; a transaction buffers writes
  and a commit prepends them atomically (the store contract: atomic
  multi-key writes, snapshot reads);
- Go errors compared by message text are modelled by a message-carrying
  error value, because the polling loop branches on err.Error();
- a Go (value, error) return where the value is only meaningful on the
  error path as well (the lookup helpers) is a pair of the value and an
  optional error; elsewhere Except models (value XOR error).
-/

/-- A 32-byte hash, abstracted to a natural number. -/
abbrev Hash := Nat

/-- A badger key. The constructors mirror the four key shapes the drafts
write: tendermint-prefixed, ethereum-prefixed, raw (the unprefixed keys of
the main.go draft), and the literal height key. -/
inductive Key where
  | tm (h : Hash)
  | eth (h : Hash)
  | raw (h : Hash)
  | height
deriving DecidableEq, Repr

/-- The badger store: an association list from keys to values, newest
binding first. Hash-valued and decimal-string values both appear; each is
modelled as the Nat it denotes. -/
abbrev Store := List (Key × Nat)

/-- Snapshot read of one key (txn.Get): the newest binding wins. -/
def storeGet : Store → Key → Option Nat
  | [], _ => none
  | (k', v) :: rest, k => if k' = k then some v else storeGet rest k

/-- Atomic commit of a buffered write list: all writes become visible at
once, with later writes in the buffer shadowing earlier ones. -/
def txnApply (db : Store) (writes : List (Key × Nat)) : Store :=
  writes.reverse ++ db

/-- badger.ErrKeyNotFound, the only store-level failure the pure model can
produce. -/
inductive DBErr where
  | keyNotFound
deriving DecidableEq, Repr

/-- The result body of eth_getBlockByNumber as the final draft decodes it:
the tendermint (native) hash and the ethereum (canonical) hash of one
block. -/
structure rpcBlock where
  TmHash : Hash
  EthHash : Hash
deriving DecidableEq, Repr

/-- A Go error reaching the sync loops, carrying the message that
err.Error() would return, since the loops branch on that text. -/
structure FetchErr where
  msg : String
deriving DecidableEq, Repr

/-- The ethereum.NotFound sentinel returned by getBlockHashesByNum when
the response body is empty; in go-ethereum it is errors.New with the text
"not found". -/
def ethereumNotFound : FetchErr := ⟨"not found"⟩

/-- tmHashLookup: Get(tendermint-prefix ++ hash). On ErrKeyNotFound the Go
function returns the queried hash bytes together with the error; on a hit
it returns the stored value and no error. -/
def tmHashLookup (db : Store) (h : Hash) : Hash × Option DBErr :=
  match storeGet db (Key.tm h) with
  | some v => (v, none)
  | none => (h, some DBErr.keyNotFound)

/-- ethHashLookup: Get(ethereum-prefix ++ hash), same shape as
tmHashLookup. -/
def ethHashLookup (db : Store) (h : Hash) : Hash × Option DBErr :=
  match storeGet db (Key.eth h) with
  | some v => (v, none)
  | none => (h, some DBErr.keyNotFound)

/-- An execution-layer header: the parentHash field, which the query
service rewrites, and one opaque field standing for every field the code
leaves untouched. -/
structure Header where
  parentHash : Hash
  rest : Nat
deriving DecidableEq, Repr

/-- An error surfaced by a query-service method: either an upstream fetch
error or a store lookup error. -/
inductive SvcErr where
  | fetch (e : FetchErr)
  | db (e : DBErr)
deriving DecidableEq, Repr

/-- EthService.GetBlockByNumber of the final draft: fetch the raw header
by number from the upstream client, then look the parent hash up with
tmHashLookup; the Go code checks err independently of errors.Is, so any
lookup error, including ErrKeyNotFound, is returned to the caller (with a
zero header, collapsed here into the error branch). -/
def GetBlockByNumber (hdrByNum : Nat → Except FetchErr Header) (db : Store)
    (n : Nat) : Except SvcErr Header :=
  match hdrByNum n with
  | Except.error e => Except.error (SvcErr.fetch e)
  | Except.ok header =>
    match tmHashLookup db header.parentHash with
    | (_, some e) => Except.error (SvcErr.db e)
    | (ph, none) => Except.ok { header with parentHash := ph }

/-- EthService.GetBlockByHash of the final draft: resolve the supplied
hash with ethHashLookup, where ErrKeyNotFound is explicitly tolerated
(empty errors.Is branch) and the identity value is used, then fetch the
header by the resolved hash and rewrite its parent hash exactly as
GetBlockByNumber does, including the unconditional err check. -/
def GetBlockByHash (hdrByHash : Hash → Except FetchErr Header) (db : Store)
    (h : Hash) : Except SvcErr Header :=
  match ethHashLookup db h with
  | (dbHash, _) =>
    match hdrByHash dbHash with
    | Except.error e => Except.error (SvcErr.fetch e)
    | Except.ok header =>
      match tmHashLookup db header.parentHash with
      | (_, some e) => Except.error (SvcErr.db e)
      | (ph, none) => Except.ok { header with parentHash := ph }

/-- The write buffer of one commit of the final draft: the
native-to-canonical entry, the canonical-to-native entry and the height
key, in the order the Go code issues the Set calls. walkChain stores the
current block number under height; the polling loop stores the committed
block number plus one. -/
def commitWrites (b : rpcBlock) (hv : Nat) : List (Key × Nat) :=
  [(Key.tm b.TmHash, b.EthHash), (Key.eth b.EthHash, b.TmHash), (Key.height, hv)]

/-- The write buffer of one commit of the main.go draft walkChain: the
native-to-canonical Set call is commented out there, the keys carry no
namespace prefix, and the height key stores the current block number. -/
def mainGoCommitWrites (b : rpcBlock) (i : Nat) : List (Key × Nat) :=
  [(Key.raw b.EthHash, b.TmHash), (Key.height, i)]

/-- The outcome of walkChain in the final draft: the returned height (0 on
error, as the Go code returns), the store as left by the committed prefix
of the walk, and the surfaced error if any. -/
structure WalkResult where
  height : Nat
  db : Store
  err : Option FetchErr
deriving DecidableEq, Repr

/-- The for loop of walkChain: at block i with r iterations remaining
(r = head - i), fetch the hash pair for i; on error return 0 and the
error; on success commit the pair and the height in one transaction and
continue at i + 1. -/
def walkFrom (fetch : Nat → Except FetchErr rpcBlock) :
    Nat → Nat → Store → WalkResult
  | i, 0, db => ⟨i, db, none⟩
  | i, r + 1, db =>
    match fetch i with
    | Except.error e => ⟨0, db, some e⟩
    | Except.ok b => walkFrom fetch (i + 1) r (txnApply db (commitWrites b i))

/-- The block numbers walkChain fetches, in order, including the fetch
that fails when one does. Mirrors the fetch calls of walkFrom. -/
def walkFetches (fetch : Nat → Except FetchErr rpcBlock) :
    Nat → Nat → List Nat
  | _, 0 => []
  | i, r + 1 =>
    match fetch i with
    | Except.error _ => [i]
    | Except.ok _ => i :: walkFetches fetch (i + 1) r

/-- The starting height main computes: 0, overridden by the stored height
value when the height key is present (the Key not found error is
tolerated). -/
def startHeight (db : Store) : Nat :=
  match storeGet db Key.height with
  | some h => h
  | none => 0

/-- main calling walkChain: the head height is obtained once from the
upstream client (the blockNumber argument) and the walk runs from the
starting height derived from the store. -/
def mainCatchUp (blockNumber : Nat) (fetch : Nat → Except FetchErr rpcBlock)
    (db0 : Store) : WalkResult :=
  walkFrom fetch (startHeight db0) (blockNumber - startHeight db0) db0

/-- The in-memory state of the polling loop: the height variable and the
store. -/
structure LoopState where
  head : Nat
  db : Store
deriving DecidableEq, Repr

/-- Startup as main performs it: run the catch-up walk; if it surfaces an
error, main panics (none); otherwise the loop starts at the returned
height with the store the walk left. -/
def mainStartupOk (blockNumber : Nat) (fetch : Nat → Except FetchErr rpcBlock)
    (db0 : Store) : Option LoopState :=
  match mainCatchUp blockNumber fetch db0 with
  | ⟨h, db, none⟩ => some ⟨h, db⟩
  | ⟨_, _, some _⟩ => none

/-- Result of one tick of the polling loop. -/
inductive TickResult where
  | panicked (e : FetchErr)
  | next (s : LoopState)
deriving DecidableEq, Repr

/-- One tick of the steady-state loop: fetch the pair for the height
variable; on an error the loop panics unless the message text equals
"key not found", in which case the tick is skipped; on success it commits
the pair together with height + 1 under the height key and increments the
in-memory height. -/
def steadyTick (fetch : Nat → Except FetchErr rpcBlock) (s : LoopState) :
    TickResult :=
  match fetch s.head with
  | Except.error e =>
    if e.msg ≠ "key not found" then TickResult.panicked e else TickResult.next s
  | Except.ok b =>
    TickResult.next ⟨s.head + 1, txnApply s.db (commitWrites b (s.head + 1))⟩

/-- Run the steady-state loop over a list of per-tick fetch behaviours
(the upstream can change between ticks); none when some tick panics. -/
def runTicks : List (Nat → Except FetchErr rpcBlock) → LoopState →
    Option LoopState
  | [], s => some s
  | f :: fs, s =>
    match steadyTick f s with
    | TickResult.panicked _ => none
    | TickResult.next s' => runTicks fs s'

/-- A full run of the synchroniser from an empty store: catch-up walk from
height 0 against an upstream whose head is blockNumber, then the given
steady-state ticks. -/
def runSync (blockNumber : Nat) (fetch0 : Nat → Except FetchErr rpcBlock)
    (ticks : List (Nat → Except FetchErr rpcBlock)) : Option LoopState :=
  match mainStartupOk blockNumber fetch0 [] with
  | none => none
  | some s => runTicks ticks s

/-- Both direction entries of the translation pair of block b are visible
in the store. -/
def pairCommitted (db : Store) (b : rpcBlock) : Bool :=
  decide (storeGet db (Key.tm b.TmHash) = some b.EthHash) &&
  decide (storeGet db (Key.eth b.EthHash) = some b.TmHash)

/-- Block number n has a committed translation pair, relative to the
assignment of hash pairs to block numbers of the upstream chain. -/
def blockCommittedB (bpairs : Nat → Option rpcBlock) (db : Store) (n : Nat) :
    Bool :=
  match bpairs n with
  | some b => pairCommitted db b
  | none => false

/-- A fetch behaviour agrees with the chain: whenever it succeeds at a
number, it returns the hash pair the chain assigns to that number. -/
def Agrees (bpairs : Nat → Option rpcBlock)
    (fetch : Nat → Except FetchErr rpcBlock) : Prop :=
  ∀ n b, fetch n = Except.ok b → bpairs n = some b

/-- Distinct blocks carry distinct native hashes and distinct canonical
hashes (the 1:1:1 relationship among number, native hash and canonical
hash). -/
def PairwiseDistinct (bpairs : Nat → Option rpcBlock) : Prop :=
  ∀ m n bm bn, bpairs m = some bm → bpairs n = some bn → m ≠ n →
    bm.TmHash ≠ bn.TmHash ∧ bm.EthHash ≠ bn.EthHash

/-- The stored height value of the first store is dominated by that of the
second: the checkpoint did not decrease. -/
def storedLe (a b : Store) : Prop :=
  ∀ c, storeGet a Key.height = some c →
    ∃ c', storeGet b Key.height = some c' ∧ c ≤ c'

/-- The synchroniser invariant: every block number below the in-memory
height has a committed pair, and any stored checkpoint is at most the
in-memory height. -/
def SyncInv (bpairs : Nat → Option rpcBlock) (s : LoopState) : Prop :=
  (∀ n, n < s.head → blockCommittedB bpairs s.db n = true) ∧
  (∀ c, storeGet s.db Key.height = some c → c ≤ s.head)

/-- Did a fetch succeed. -/
def fetchOk (r : Except FetchErr rpcBlock) : Bool :=
  match r with
  | Except.ok _ => true
  | Except.error _ => false

deriving instance DecidableEq for Except

/-- A store holding only a persisted checkpoint of 5. -/
def db5 : Store := [(Key.height, 5)]

/-- An upstream on which every block number has a hash pair. -/
def fetchAll : Nat → Except FetchErr rpcBlock :=
  fun n => Except.ok ⟨100 + n, 200 + n⟩

/-- An upstream serving a header only for block number 7, whose raw
parent hash is 99. -/
def hdr2 : Nat → Except FetchErr Header :=
  fun n => if n = 7 then Except.ok ⟨99, 7⟩ else Except.error ethereumNotFound

/-- An upstream serving a header only under hash 50, whose raw parent
hash is 99. -/
def hdrByHash7 : Hash → Except FetchErr Header :=
  fun h => if h = 50 then Except.ok ⟨99, 3⟩ else Except.error ethereumNotFound

/-- A store recording only the native-to-canonical entry 99 to 42. -/
def dbW7 : Store := [(Key.tm 99, 42)]

/-- An upstream that answers every pair fetch with ethereum.NotFound, the
sentinel getBlockHashesByNum itself produces for an empty response. -/
def tick3 : Nat → Except FetchErr rpcBlock :=
  fun _ => Except.error ethereumNotFound

/-- An upstream whose pair fetches fail with the message text the polling
loop recognises as not-found. -/
def tickKNF : Nat → Except FetchErr rpcBlock :=
  fun _ => Except.error ⟨"key not found"⟩

/-- An upstream whose pair fetches always succeed with the fixed pair
(10, 11). -/
def tickOk10 : Nat → Except FetchErr rpcBlock :=
  fun _ => Except.ok ⟨10, 11⟩

/-- A one-block chain: block 0 has native hash 10 and canonical hash
11. -/
def bpairs1 : Nat → Option rpcBlock :=
  fun n => if n = 0 then some ⟨10, 11⟩ else none

/-- A fetch behaviour matching bpairs1: block 0 is available, everything
else reports the recognised not-found text. -/
def tick1 : Nat → Except FetchErr rpcBlock :=
  fun n => if n = 0 then Except.ok ⟨10, 11⟩ else Except.error ⟨"key not found"⟩

/-- An upstream serving only block 0 and failing with a transport error
elsewhere. -/
def fetch8 : Nat → Except FetchErr rpcBlock :=
  fun n => if n = 0 then Except.ok ⟨10, 11⟩ else Except.error ⟨"boom"⟩

lemma storeGet_commit_height (db : Store) (b : rpcBlock) (hv : Nat) :
    storeGet (txnApply db (commitWrites b hv)) Key.height = some hv := by
  simp [txnApply, commitWrites, storeGet]

lemma storeGet_commit_tm_self (db : Store) (b : rpcBlock) (hv : Nat) :
    storeGet (txnApply db (commitWrites b hv)) (Key.tm b.TmHash) =
      some b.EthHash := by
  simp [txnApply, commitWrites, storeGet]

lemma storeGet_commit_eth_self (db : Store) (b : rpcBlock) (hv : Nat) :
    storeGet (txnApply db (commitWrites b hv)) (Key.eth b.EthHash) =
      some b.TmHash := by
  simp [txnApply, commitWrites, storeGet]

lemma storeGet_commit_tm_other (db : Store) (b : rpcBlock) (hv : Nat)
    (h : Hash) (hne : h ≠ b.TmHash) :
    storeGet (txnApply db (commitWrites b hv)) (Key.tm h) =
      storeGet db (Key.tm h) := by
  simp [txnApply, commitWrites, storeGet, Ne.symm hne]

lemma storeGet_commit_eth_other (db : Store) (b : rpcBlock) (hv : Nat)
    (h : Hash) (hne : h ≠ b.EthHash) :
    storeGet (txnApply db (commitWrites b hv)) (Key.eth h) =
      storeGet db (Key.eth h) := by
  simp [txnApply, commitWrites, storeGet, Ne.symm hne]

/-- Claim C9: when the store holds no entry for the queried hash, the
lookup helpers tmHashLookup and ethHashLookup return the queried hash
itself as the value, together with the key-not-found error, so a caller
ignoring the not-found condition receives the identity mapping. -/
theorem lookup_miss_returns_identity (db : Store) (h h' : Hash)
    (h1 : storeGet db (Key.tm h) = none)
    (h2 : storeGet db (Key.eth h') = none) :
    tmHashLookup db h = (h, some DBErr.keyNotFound) ∧
    ethHashLookup db h' = (h', some DBErr.keyNotFound) := by
  constructor
  · simp [tmHashLookup, h1]
  · simp [ethHashLookup, h2]

/-- Witness for claim C9 at the empty store and hashes 1 and 2. -/
theorem lookup_miss_returns_identity_witness :
    tmHashLookup [] 1 = (1, some DBErr.keyNotFound) ∧
    ethHashLookup [] 2 = (2, some DBErr.keyNotFound) :=
  lookup_miss_returns_identity [] 1 2 (by decide) (by decide)

/-- Claim C10: when the start height is at least the upstream head height,
the catch-up walk performs no fetches and no store writes and returns the
start height itself. -/
theorem walk_noop_when_head_below_start (head0 : Nat)
    (fetch : Nat → Except FetchErr rpcBlock) (db0 : Store)
    (hle : head0 ≤ startHeight db0) :
    mainCatchUp head0 fetch db0 = ⟨startHeight db0, db0, none⟩ ∧
    walkFetches fetch (startHeight db0) (head0 - startHeight db0) = [] := by
  have h0 : head0 - startHeight db0 = 0 := Nat.sub_eq_zero_of_le hle
  unfold mainCatchUp
  rw [h0]
  exact ⟨rfl, rfl⟩

/-- Witness for claim C10: persisted checkpoint 5, upstream head 3. -/
theorem walk_noop_when_head_below_start_witness :
    mainCatchUp 3 fetchAll db5 = ⟨startHeight db5, db5, none⟩ ∧
    walkFetches fetchAll (startHeight db5) (3 - startHeight db5) = [] :=
  walk_noop_when_head_below_start 3 fetchAll db5 (by decide)

/-- Claim C2, evaluated at its failing input: with an empty store (no
mapping recorded for the parent hash 99), GetBlockByNumber on block 7
returns the key-not-found error from the parent lookup instead of the
header with its parent hash unchanged; with the parent mapping recorded
the same call rewrites the parent hash. -/
theorem getBlockByNumber_missing_parent_errors :
    GetBlockByNumber hdr2 [] 7 = Except.error (SvcErr.db DBErr.keyNotFound) ∧
    GetBlockByNumber hdr2 [] 7 ≠ Except.ok (⟨99, 7⟩ : Header) ∧
    GetBlockByNumber hdr2 [(Key.tm 99, 42)] 7 =
      Except.ok (⟨42, 7⟩ : Header) := by
  decide

/-- Claim C6, evaluated at its failing input: the main.go draft of
walkChain commits block 0 with native hash 1 and canonical hash 2 writing
only the canonical-to-native entry (the native-to-canonical Set call is
commented out), so a reader observes exactly one of the two direction
keys; the final draft writes both in the same transaction. -/
theorem maingo_commit_writes_one_direction :
    storeGet (txnApply [] (mainGoCommitWrites ⟨1, 2⟩ 0)) (Key.raw 2) =
      some 1 ∧
    storeGet (txnApply [] (mainGoCommitWrites ⟨1, 2⟩ 0)) (Key.raw 1) =
      none ∧
    storeGet (txnApply [] (commitWrites ⟨1, 2⟩ 0)) (Key.tm 1) = some 2 ∧
    storeGet (txnApply [] (commitWrites ⟨1, 2⟩ 0)) (Key.eth 2) = some 1 := by
  decide

/-- Counterexample to claim C3 as stated: a steady-state tick whose pair
fetch returns the NotFound sentinel of getBlockHashesByNum (message text
"not found") panics the loop instead of skipping the tick, because the
loop only tolerates the message text "key not found". -/
theorem steady_notFound_panics :
    steadyTick tick3 ⟨6, []⟩ = TickResult.panicked ethereumNotFound ∧
    steadyTick tick3 ⟨6, []⟩ ≠ TickResult.next ⟨6, []⟩ := by
  decide

/-- Claim C3 as amended: a tick whose fetch fails with the message text
"key not found" is skipped without error leaving the state unchanged; a
tick whose fetch succeeds commits both direction entries of the pair
together with checkpoint head + 1 in one transaction and advances the
in-memory height by exactly one. -/
theorem steady_tick_skip_and_advance (f g : Nat → Except FetchErr rpcBlock)
    (s : LoopState) (b : rpcBlock)
    (hf : f s.head = Except.error ⟨"key not found"⟩)
    (hg : g s.head = Except.ok b) :
    steadyTick f s = TickResult.next s ∧
    steadyTick g s =
      TickResult.next ⟨s.head + 1, txnApply s.db (commitWrites b (s.head + 1))⟩ ∧
    storeGet (txnApply s.db (commitWrites b (s.head + 1))) (Key.tm b.TmHash) =
      some b.EthHash ∧
    storeGet (txnApply s.db (commitWrites b (s.head + 1))) (Key.eth b.EthHash) =
      some b.TmHash ∧
    storeGet (txnApply s.db (commitWrites b (s.head + 1))) Key.height =
      some (s.head + 1) := by
  refine ⟨?_, ?_, storeGet_commit_tm_self s.db b (s.head + 1),
    storeGet_commit_eth_self s.db b (s.head + 1),
    storeGet_commit_height s.db b (s.head + 1)⟩
  · simp [steadyTick, hf]
  · simp [steadyTick, hg]

/-- Witness for claim C3 as amended, at height 6 with an empty store: the
not-found tick is skipped, the successful tick commits pair (10, 11) and
advances the height to 7. -/
theorem steady_tick_skip_and_advance_witness :
    steadyTick tickKNF ⟨6, []⟩ = TickResult.next ⟨6, []⟩ ∧
    steadyTick tickOk10 ⟨6, []⟩ =
      TickResult.next ⟨6 + 1, txnApply [] (commitWrites ⟨10, 11⟩ (6 + 1))⟩ ∧
    storeGet (txnApply [] (commitWrites ⟨10, 11⟩ (6 + 1))) (Key.tm 10) =
      some 11 ∧
    storeGet (txnApply [] (commitWrites ⟨10, 11⟩ (6 + 1))) (Key.eth 11) =
      some 10 ∧
    storeGet (txnApply [] (commitWrites ⟨10, 11⟩ (6 + 1))) Key.height =
      some (6 + 1) :=
  steady_tick_skip_and_advance tickKNF tickOk10 ⟨6, []⟩ ⟨10, 11⟩ rfl rfl

/-- Counterexample to claim C7 as stated: with an empty store the supplied
hash 50 has no recorded canonical-to-native mapping and is passed through,
the upstream returns a header for it, yet the call returns the
key-not-found error from the parent-hash lookup rather than the header. -/
theorem getBlockByHash_unmapped_parent_errors :
    storeGet ([] : Store) (Key.eth 50) = none ∧
    GetBlockByHash hdrByHash7 [] 50 =
      Except.error (SvcErr.db DBErr.keyNotFound) := by
  decide

/-- Claim C7 as amended: given a hash with no recorded canonical-to-native
mapping, the supplied hash itself is used for the upstream fetch; when the
upstream returns a header under it and the header parent hash has a
recorded native-to-canonical mapping, the call returns that header with
the parent hash rewritten and no error. -/
theorem getBlockByHash_passthrough_ok
    (hdrByHash : Hash → Except FetchErr Header) (db : Store) (h : Hash)
    (hd : Header) (v : Hash)
    (hmiss : storeGet db (Key.eth h) = none)
    (hhdr : hdrByHash h = Except.ok hd)
    (hparent : storeGet db (Key.tm hd.parentHash) = some v) :
    GetBlockByHash hdrByHash db h = Except.ok { hd with parentHash := v } := by
  simp [GetBlockByHash, ethHashLookup, hmiss, hhdr, tmHashLookup, hparent]

/-- Witness for claim C7 as amended: hash 50 is unmapped, the upstream
serves a header with raw parent 99, the store maps 99 to 42, and the call
returns the header with parent 42. -/
theorem getBlockByHash_passthrough_ok_witness :
    GetBlockByHash hdrByHash7 dbW7 50 =
      Except.ok { (⟨99, 3⟩ : Header) with parentHash := 42 } :=
  getBlockByHash_passthrough_ok hdrByHash7 dbW7 50 ⟨99, 3⟩ 42
    (by decide) (by decide) (by decide)

/-- Counterexample to claim C5 as stated: with a persisted checkpoint of 5
and upstream head 10, the catch-up walk starts at the checkpoint itself,
fetching blocks 5 through 9, not at checkpoint plus one as claimed (which
would fetch exactly 6 through 9). -/
theorem walk_starts_at_checkpoint_not_after :
    startHeight db5 = 5 ∧
    walkFetches fetchAll (startHeight db5) (10 - startHeight db5) =
      [5, 6, 7, 8, 9] ∧
    walkFetches fetchAll (startHeight db5) (10 - startHeight db5) ≠
      List.range' (5 + 1) (10 - (5 + 1)) := by
  decide

/-- Counterexample to claim C1 as stated: starting from an empty store
with upstream head 0, one successful steady-state tick commits the pair of
block 0 but stores checkpoint 1; the stored checkpoint then differs from
the highest block number whose pair is committed (block 0), and block 1,
at the checkpoint, has no committed pair. -/
theorem steady_commit_checkpoint_overshoot :
    runSync 0 tick1 [tick1] =
      some ⟨1, [(Key.height, 1), (Key.eth 11, 10), (Key.tm 10, 11)]⟩ ∧
    storeGet [(Key.height, 1), (Key.eth 11, 10), (Key.tm 10, 11)]
      Key.height = some 1 ∧
    blockCommittedB bpairs1
      [(Key.height, 1), (Key.eth 11, 10), (Key.tm 10, 11)] 1 = false ∧
    blockCommittedB bpairs1
      [(Key.height, 1), (Key.eth 11, 10), (Key.tm 10, 11)] 0 = true := by
  decide

lemma walkFrom_step_err (fetch : Nat → Except FetchErr rpcBlock)
    (start r : Nat) (db : Store) (e : FetchErr)
    (hfi : fetch start = Except.error e) :
    walkFrom fetch start (r + 1) db = ⟨0, db, some e⟩ := by
  simp only [walkFrom]
  rw [hfi]

lemma walkFrom_step_ok (fetch : Nat → Except FetchErr rpcBlock)
    (start r : Nat) (db : Store) (b : rpcBlock)
    (hfi : fetch start = Except.ok b) :
    walkFrom fetch start (r + 1) db =
      walkFrom fetch (start + 1) r (txnApply db (commitWrites b start)) := by
  simp only [walkFrom]
  rw [hfi]

lemma walkFetches_step_err (fetch : Nat → Except FetchErr rpcBlock)
    (start r : Nat) (e : FetchErr) (hfi : fetch start = Except.error e) :
    walkFetches fetch start (r + 1) = [start] := by
  simp only [walkFetches]
  rw [hfi]

lemma walkFetches_step_ok (fetch : Nat → Except FetchErr rpcBlock)
    (start r : Nat) (b : rpcBlock) (hfi : fetch start = Except.ok b) :
    walkFetches fetch start (r + 1) = start :: walkFetches fetch (start + 1) r := by
  simp only [walkFetches]
  rw [hfi]

lemma walkFrom_err_none_ok (fetch : Nat → Except FetchErr rpcBlock) :
    ∀ r start db, (walkFrom fetch start r db).err = none →
    ∀ n, n < start + r → start ≤ n → fetchOk (fetch n) = true := by
  intro r
  induction r with
  | zero => intro start db _ n hn hsn; omega
  | succ r ih =>
    intro start db herr n hn hsn
    cases hfi : fetch start with
    | error e =>
      rw [walkFrom_step_err fetch start r db e hfi] at herr
      cases herr
    | ok b =>
      rw [walkFrom_step_ok fetch start r db b hfi] at herr
      rcases Nat.eq_or_lt_of_le hsn with heq | hlt
      · rw [← heq, hfi]; rfl
      · exact ih (start + 1) _ herr n (by omega) hlt

lemma walkFrom_ok_shape (fetch : Nat → Except FetchErr rpcBlock) :
    ∀ r start db,
    (∀ n, n < start + r → start ≤ n → fetchOk (fetch n) = true) →
    (walkFrom fetch start r db).err = none ∧
    (walkFrom fetch start r db).height = start + r ∧
    walkFetches fetch start r = List.range' start r ∧
    storeGet (walkFrom fetch start r db).db Key.height =
      (if r = 0 then storeGet db Key.height else some (start + r - 1)) := by
  intro r
  induction r with
  | zero => intro start db _; exact ⟨rfl, rfl, rfl, by simp [walkFrom]⟩
  | succ r ih =>
    intro start db hok
    have h0 : fetchOk (fetch start) = true := hok start (by omega) (le_refl start)
    cases hfi : fetch start with
    | error e => rw [hfi] at h0; cases h0
    | ok b =>
      have hrec := walkFrom_step_ok fetch start r db b hfi
      have hfet := walkFetches_step_ok fetch start r b hfi
      obtain ⟨e1, e2, e3, e4⟩ :=
        ih (start + 1) (txnApply db (commitWrites b start))
          (fun n hn hsn => hok n (by omega) (by omega))
      refine ⟨by rw [hrec]; exact e1, ?_, ?_, ?_⟩
      · rw [hrec, e2]; omega
      · rw [hfet, e3, List.range'_succ]
      · rw [hrec, e4]
        by_cases hr : r = 0
        · subst hr
          simp [storeGet_commit_height]
        · simp only [hr, if_false, Nat.succ_ne_zero, if_neg]
          congr 1
          omega

lemma blockCommittedB_commit_preserve (bpairs : Nat → Option rpcBlock)
    (hinj : PairwiseDistinct bpairs) (db : Store) (n i : Nat) (b : rpcBlock)
    (hv : Nat) (hb : bpairs i = some b) (hne : n ≠ i)
    (hc : blockCommittedB bpairs db n = true) :
    blockCommittedB bpairs (txnApply db (commitWrites b hv)) n = true := by
  unfold blockCommittedB at hc ⊢
  cases hbn : bpairs n with
  | none => rw [hbn] at hc; cases hc
  | some bn =>
    rw [hbn] at hc
    obtain ⟨ht, he⟩ := hinj n i bn b hbn hb hne
    unfold pairCommitted at hc ⊢
    simp only [Bool.and_eq_true, decide_eq_true_eq] at hc ⊢
    exact ⟨by rw [storeGet_commit_tm_other db b hv bn.TmHash ht]; exact hc.1,
      by rw [storeGet_commit_eth_other db b hv bn.EthHash he]; exact hc.2⟩

lemma blockCommittedB_commit_self (bpairs : Nat → Option rpcBlock)
    (i : Nat) (b : rpcBlock) (hv : Nat) (db : Store)
    (hb : bpairs i = some b) :
    blockCommittedB bpairs (txnApply db (commitWrites b hv)) i = true := by
  unfold blockCommittedB
  rw [hb]
  unfold pairCommitted
  simp [storeGet_commit_tm_self, storeGet_commit_eth_self]

lemma walkFrom_committed (bpairs : Nat → Option rpcBlock)
    (hinj : PairwiseDistinct bpairs) (fetch : Nat → Except FetchErr rpcBlock)
    (hag : Agrees bpairs fetch) :
    ∀ r start db, (walkFrom fetch start r db).err = none →
    (∀ n, n < start → blockCommittedB bpairs db n = true) →
    ∀ n, n < start + r →
      blockCommittedB bpairs (walkFrom fetch start r db).db n = true := by
  intro r
  induction r with
  | zero => intro start db _ pre n hn; exact pre n (by omega)
  | succ r ih =>
    intro start db herr pre n hn
    cases hfi : fetch start with
    | error e =>
      rw [walkFrom_step_err fetch start r db e hfi] at herr
      cases herr
    | ok b =>
      have hb := hag start b hfi
      rw [walkFrom_step_ok fetch start r db b hfi] at herr ⊢
      apply ih (start + 1) _ herr _ n (by omega)
      intro m hm
      rcases Nat.lt_succ_iff_lt_or_eq.mp hm with hlt | heq
      · exact blockCommittedB_commit_preserve bpairs hinj db m start b start hb
          (by omega) (pre m hlt)
      · subst heq
        exact blockCommittedB_commit_self bpairs m b m db hb

lemma steadyTick_next_cases (f : Nat → Except FetchErr rpcBlock)
    (s s' : LoopState) (h : steadyTick f s = TickResult.next s') :
    s' = s ∨ ∃ b, f s.head = Except.ok b ∧
      s' = ⟨s.head + 1, txnApply s.db (commitWrites b (s.head + 1))⟩ := by
  unfold steadyTick at h
  split at h
  · split at h
    · cases h
    · injection h with h2
      exact Or.inl h2.symm
  · rename_i b heq
    injection h with h2
    exact Or.inr ⟨b, heq, h2.symm⟩

lemma tick_preserves_inv (bpairs : Nat → Option rpcBlock)
    (hinj : PairwiseDistinct bpairs) (f : Nat → Except FetchErr rpcBlock)
    (hag : Agrees bpairs f) (s s' : LoopState)
    (hinv : SyncInv bpairs s) (h : steadyTick f s = TickResult.next s') :
    SyncInv bpairs s' ∧ storedLe s.db s'.db := by
  rcases steadyTick_next_cases f s s' h with heq | ⟨b, hfi, heq⟩
  · subst heq
    exact ⟨hinv, fun c hc => ⟨c, hc, le_refl c⟩⟩
  · subst heq
    obtain ⟨hcom, hck⟩ := hinv
    have hb := hag s.head b hfi
    refine ⟨⟨?_, ?_⟩, ?_⟩
    · intro n hn
      rcases Nat.lt_succ_iff_lt_or_eq.mp hn with hlt | heq2
      · exact blockCommittedB_commit_preserve bpairs hinj s.db n s.head b
          (s.head + 1) hb (Nat.ne_of_lt hlt) (hcom n hlt)
      · rw [heq2]
        exact blockCommittedB_commit_self bpairs s.head b (s.head + 1) s.db hb
    · intro c hc
      rw [storeGet_commit_height] at hc
      injection hc with h2
      show c ≤ s.head + 1
      omega
    · intro c hc
      exact ⟨s.head + 1, storeGet_commit_height s.db b (s.head + 1),
        le_trans (hck c hc) (Nat.le_succ s.head)⟩

lemma runTicks_inv (bpairs : Nat → Option rpcBlock)
    (hinj : PairwiseDistinct bpairs) :
    ∀ fs (s s' : LoopState), (∀ f ∈ fs, Agrees bpairs f) →
    SyncInv bpairs s → runTicks fs s = some s' →
    SyncInv bpairs s' ∧ storedLe s.db s'.db := by
  intro fs
  induction fs with
  | nil =>
    intro s s' _ hinv h
    cases h
    exact ⟨hinv, fun c hc => ⟨c, hc, le_refl c⟩⟩
  | cons f fs ih =>
    intro s s' hag hinv h
    unfold runTicks at h
    cases htk : steadyTick f s with
    | panicked e => rw [htk] at h; cases h
    | next s1 =>
      rw [htk] at h
      have hf := hag f (List.mem_cons_self f fs)
      obtain ⟨hinv1, hle1⟩ := tick_preserves_inv bpairs hinj f hf s s1 hinv htk
      obtain ⟨hinv2, hle2⟩ :=
        ih s1 s' (fun g hg => hag g (List.mem_cons_of_mem f hg)) hinv1 h
      refine ⟨hinv2, fun c hc => ?_⟩
      obtain ⟨c1, hc1, l1⟩ := hle1 c hc
      obtain ⟨c2, hc2, l2⟩ := hle2 c1 hc1
      exact ⟨c2, hc2, le_trans l1 l2⟩

lemma runTicks_append (fs1 fs2 : List (Nat → Except FetchErr rpcBlock)) :
    ∀ s, runTicks (fs1 ++ fs2) s =
      (match runTicks fs1 s with
      | none => none
      | some s1 => runTicks fs2 s1) := by
  induction fs1 with
  | nil => intro s; rfl
  | cons f fs ih =>
    intro s
    simp only [List.cons_append, runTicks]
    cases htk : steadyTick f s with
    | panicked e => rfl
    | next s1 => exact ih s1

lemma mainStartupOk_empty (head0 : Nat)
    (fetch0 : Nat → Except FetchErr rpcBlock) (s0 : LoopState)
    (h : mainStartupOk head0 fetch0 [] = some s0) :
    (walkFrom fetch0 0 head0 []).err = none ∧
    s0.head = (walkFrom fetch0 0 head0 []).height ∧
    s0.db = (walkFrom fetch0 0 head0 []).db := by
  unfold mainStartupOk mainCatchUp at h
  have hsh : startHeight ([] : Store) = 0 := rfl
  rw [hsh, Nat.sub_zero] at h
  cases hw : walkFrom fetch0 0 head0 [] with
  | mk hh dd ee =>
    rw [hw] at h
    cases ee with
    | none =>
      cases h
      exact ⟨rfl, rfl, rfl⟩
    | some e => cases h

lemma runSync_inv (bpairs : Nat → Option rpcBlock)
    (hinj : PairwiseDistinct bpairs) (head0 : Nat)
    (fetch0 : Nat → Except FetchErr rpcBlock) (hag0 : Agrees bpairs fetch0)
    (ticks : List (Nat → Except FetchErr rpcBlock))
    (hts : ∀ f ∈ ticks, Agrees bpairs f) (s : LoopState)
    (hrun : runSync head0 fetch0 ticks = some s) :
    SyncInv bpairs s ∧
    ∃ s0, mainStartupOk head0 fetch0 [] = some s0 ∧
      runTicks ticks s0 = some s ∧ SyncInv bpairs s0 ∧ s0.head = head0 ∧
      storeGet s0.db Key.height =
        (if head0 = 0 then (none : Option Nat) else some (head0 - 1)) := by
  unfold runSync at hrun
  cases hst : mainStartupOk head0 fetch0 [] with
  | none => rw [hst] at hrun; cases hrun
  | some s0 =>
    rw [hst] at hrun
    obtain ⟨herr, hhd, hdb⟩ := mainStartupOk_empty head0 fetch0 s0 hst
    have hok0 := walkFrom_err_none_ok fetch0 head0 0 [] herr
    obtain ⟨_, hh2, _, hst2⟩ := walkFrom_ok_shape fetch0 head0 0 [] hok0
    have hcom := walkFrom_committed bpairs hinj fetch0 hag0 head0 0 [] herr
      (fun n hn => absurd hn (Nat.not_lt_zero n))
    have hhead : s0.head = head0 := by rw [hhd, hh2]; omega
    have hstored : storeGet s0.db Key.height =
        (if head0 = 0 then (none : Option Nat) else some (head0 - 1)) := by
      rw [hdb, hst2]
      by_cases h0 : head0 = 0
      · simp [h0, storeGet]
      · simp only [h0, if_false, if_neg]
        congr 1
        omega
    have hinv0 : SyncInv bpairs s0 := by
      constructor
      · intro n hn
        rw [hdb]
        exact hcom n (by omega)
      · intro c hc
        rw [hstored] at hc
        by_cases h0 : head0 = 0
        · rw [if_pos h0] at hc; cases hc
        · rw [if_neg h0] at hc
          injection hc with h2
          omega
    obtain ⟨hinvS, _⟩ := runTicks_inv bpairs hinj ticks s0 s hts hinv0 hrun
    exact ⟨hinvS, s0, rfl, hrun, hinv0, hhead, hstored⟩

lemma bpairs1_distinct : PairwiseDistinct bpairs1 := by
  intro m n bm bn hm hn hne
  unfold bpairs1 at hm hn
  split at hm
  · split at hn
    · rename_i hm0 hn0
      exact absurd (hm0.trans hn0.symm) hne
    · cases hn
  · cases hm

lemma agrees_tick1 : Agrees bpairs1 tick1 := by
  intro n b h
  unfold tick1 at h
  unfold bpairs1
  split at h
  · rename_i hn0
    rw [if_pos hn0]
    injection h with h2
    rw [h2]
  · cases h

/-- Claim C1 as amended: in any run from an empty store, every block
number strictly below the stored checkpoint has a committed pair (no
holes strictly below the checkpoint); the stored checkpoint never
decreases across the run; the catch-up phase leaves the checkpoint at the
last committed block number head0 - 1, equal to the highest committed
block; but a steady-state commit of the block at the current height
stores checkpoint height + 1, one past the block whose pair it commits,
so in steady state the stored checkpoint exceeds the highest committed
block number by one rather than equalling it. -/
theorem checkpoint_monotone_no_holes
    (bpairs : Nat → Option rpcBlock) (hinj : PairwiseDistinct bpairs)
    (head0 : Nat) (fetch0 : Nat → Except FetchErr rpcBlock)
    (hag0 : Agrees bpairs fetch0)
    (ticks : List (Nat → Except FetchErr rpcBlock))
    (hts : ∀ f ∈ ticks, Agrees bpairs f)
    (s : LoopState) (hrun : runSync head0 fetch0 ticks = some s) :
    (∀ c, storeGet s.db Key.height = some c →
      ∀ n, n < c → blockCommittedB bpairs s.db n = true) ∧
    (∀ t1 t2 s1, ticks = t1 ++ t2 → runSync head0 fetch0 t1 = some s1 →
      ∀ c, storeGet s1.db Key.height = some c →
        ∃ c', storeGet s.db Key.height = some c' ∧ c ≤ c') ∧
    (∀ s0, mainStartupOk head0 fetch0 [] = some s0 → 0 < head0 →
      storeGet s0.db Key.height = some (head0 - 1)) ∧
    (∀ f (s2 s3 : LoopState) b, f s2.head = Except.ok b →
      steadyTick f s2 = TickResult.next s3 →
      storeGet s3.db Key.height = some (s2.head + 1)) := by
  obtain ⟨hinvS, s0, hst, hrt, hinv0, hhead0, hstored0⟩ :=
    runSync_inv bpairs hinj head0 fetch0 hag0 ticks hts s hrun
  refine ⟨?_, ?_, ?_, ?_⟩
  · intro c hc n hn
    exact hinvS.1 n (lt_of_lt_of_le hn (hinvS.2 c hc))
  · intro t1 t2 s1 hsplit hrun1
    unfold runSync at hrun1
    rw [hst] at hrun1
    have hrun1' : runTicks t1 s0 = some s1 := hrun1
    rw [hsplit, runTicks_append t1 t2 s0, hrun1'] at hrt
    have hts1 : ∀ f ∈ t1, Agrees bpairs f := by
      intro f hf
      exact hts f (by rw [hsplit]; exact List.mem_append_left t2 hf)
    have hts2 : ∀ f ∈ t2, Agrees bpairs f := by
      intro f hf
      exact hts f (by rw [hsplit]; exact List.mem_append_right t1 hf)
    obtain ⟨hinv1, _⟩ := runTicks_inv bpairs hinj t1 s0 s1 hts1 hinv0 hrun1'
    obtain ⟨_, hle⟩ := runTicks_inv bpairs hinj t2 s1 s hts2 hinv1 hrt
    exact hle
  · intro s0' hst' hpos
    rw [hst] at hst'
    injection hst' with h2
    rw [← h2, hstored0, if_neg (by omega)]
  · intro f s2 s3 b hfi htk
    unfold steadyTick at htk
    rw [hfi] at htk
    have htk' : TickResult.next
        ⟨s2.head + 1, txnApply s2.db (commitWrites b (s2.head + 1))⟩ =
        TickResult.next s3 := htk
    injection htk' with h2
    rw [← h2]
    exact storeGet_commit_height s2.db b (s2.head + 1)

/-- Witness for claim C1 as amended: the run with upstream head 0 and one
successful tick committing block 0; the no-holes conjunct applied at the
stored checkpoint 1 shows the pair of block 0 committed. -/
theorem checkpoint_monotone_no_holes_witness :
    blockCommittedB bpairs1
      [(Key.height, 1), (Key.eth 11, 10), (Key.tm 10, 11)] 0 = true :=
  (checkpoint_monotone_no_holes bpairs1 bpairs1_distinct 0 tick1 agrees_tick1
    [tick1]
    (by intro f hf; rw [List.mem_singleton] at hf; rw [hf]; exact agrees_tick1)
    ⟨1, [(Key.height, 1), (Key.eth 11, 10), (Key.tm 10, 11)]⟩
    (by decide)).1 1 (by decide) 0 (by decide)

/-- Claim C4: after any synchronisation run from an empty store, every
block number strictly below the stored checkpoint round-trips: the
native-to-canonical lookup on its native hash returns its canonical hash
without error, and the canonical-to-native lookup on its canonical hash
returns its native hash without error. -/
theorem committed_prefix_roundtrip
    (bpairs : Nat → Option rpcBlock) (hinj : PairwiseDistinct bpairs)
    (head0 : Nat) (fetch0 : Nat → Except FetchErr rpcBlock)
    (hag0 : Agrees bpairs fetch0)
    (ticks : List (Nat → Except FetchErr rpcBlock))
    (hts : ∀ f ∈ ticks, Agrees bpairs f)
    (s : LoopState) (c n : Nat) (b : rpcBlock)
    (hrun : runSync head0 fetch0 ticks = some s)
    (hc : storeGet s.db Key.height = some c)
    (hn : n < c) (hb : bpairs n = some b) :
    tmHashLookup s.db b.TmHash = (b.EthHash, none) ∧
    ethHashLookup s.db b.EthHash = (b.TmHash, none) := by
  obtain ⟨⟨hcom, hck⟩, _⟩ :=
    runSync_inv bpairs hinj head0 fetch0 hag0 ticks hts s hrun
  have hcb := hcom n (lt_of_lt_of_le hn (hck c hc))
  unfold blockCommittedB at hcb
  rw [hb] at hcb
  unfold pairCommitted at hcb
  simp only [Bool.and_eq_true, decide_eq_true_eq] at hcb
  constructor
  · unfold tmHashLookup
    rw [hcb.1]
  · unfold ethHashLookup
    rw [hcb.2]

/-- Witness for claim C4 at the run committing block 0 with native hash 10
and canonical hash 11, checkpoint 1. -/
theorem committed_prefix_roundtrip_witness :
    tmHashLookup [(Key.height, 1), (Key.eth 11, 10), (Key.tm 10, 11)] 10 =
      (11, none) ∧
    ethHashLookup [(Key.height, 1), (Key.eth 11, 10), (Key.tm 10, 11)] 11 =
      (10, none) :=
  committed_prefix_roundtrip bpairs1 bpairs1_distinct 0 tick1 agrees_tick1
    [tick1]
    (by intro f hf; rw [List.mem_singleton] at hf; rw [hf]; exact agrees_tick1)
    ⟨1, [(Key.height, 1), (Key.eth 11, 10), (Key.tm 10, 11)]⟩ 1 0 ⟨10, 11⟩
    (by decide) (by decide) (by decide) (by decide)

/-- Claim C5 as amended: the catch-up walk starts at the persisted
checkpoint itself when one is present (0 otherwise), iterates exactly the
block numbers of the half-open interval from the start height to the head
height queried once at phase start, in strictly increasing order, and
when the start height is at most the head height it returns the head
height without error. -/
theorem walk_iterates_checkpoint_to_head (head0 : Nat)
    (fetch : Nat → Except FetchErr rpcBlock) (db0 : Store)
    (hok : ∀ n, n < head0 → startHeight db0 ≤ n → fetchOk (fetch n) = true)
    (hle : startHeight db0 ≤ head0) :
    startHeight db0 = (storeGet db0 Key.height).getD 0 ∧
    walkFetches fetch (startHeight db0) (head0 - startHeight db0) =
      List.range' (startHeight db0) (head0 - startHeight db0) ∧
    List.Pairwise (fun a b => a < b)
      (walkFetches fetch (startHeight db0) (head0 - startHeight db0)) ∧
    (mainCatchUp head0 fetch db0).height = head0 ∧
    (mainCatchUp head0 fetch db0).err = none := by
  obtain ⟨e1, e2, e3, _⟩ :=
    walkFrom_ok_shape fetch (head0 - startHeight db0) (startHeight db0) db0
      (fun n hn hsn => hok n (by omega) hsn)
  refine ⟨?_, e3, ?_, ?_, e1⟩
  · rcases h2 : storeGet db0 Key.height with _ | c <;> simp [startHeight, h2]
  · rw [e3]
    exact List.pairwise_lt_range' (startHeight db0) (head0 - startHeight db0)
  · unfold mainCatchUp
    rw [e2]
    omega

/-- Witness for claim C5 as amended: persisted checkpoint 5, head 8, all
fetches available: the walk fetches exactly 5, 6, 7 in order and returns
8. -/
theorem walk_iterates_checkpoint_to_head_witness :
    startHeight db5 = (storeGet db5 Key.height).getD 0 ∧
    walkFetches fetchAll (startHeight db5) (8 - startHeight db5) =
      List.range' (startHeight db5) (8 - startHeight db5) ∧
    List.Pairwise (fun a b => a < b)
      (walkFetches fetchAll (startHeight db5) (8 - startHeight db5)) ∧
    (mainCatchUp 8 fetchAll db5).height = 8 ∧
    (mainCatchUp 8 fetchAll db5).err = none :=
  walk_iterates_checkpoint_to_head 8 fetchAll db5 (by decide) (by decide)

lemma walkFrom_error_at (fetch : Nat → Except FetchErr rpcBlock)
    (e : FetchErr) :
    ∀ d start db r, fetch (start + d) = Except.error e →
    (∀ n, n < start + d → start ≤ n → fetchOk (fetch n) = true) →
    start + d < start + r →
    walkFrom fetch start r db = ⟨0, (walkFrom fetch start d db).db, some e⟩ ∧
    (walkFrom fetch start d db).err = none ∧
    walkFetches fetch start r = List.range' start d ++ [start + d] := by
  intro d
  induction d with
  | zero =>
    intro start db r hfe hok hlt
    obtain ⟨r', rfl⟩ : ∃ r', r = r' + 1 := ⟨r - 1, by omega⟩
    rw [Nat.add_zero] at hfe
    refine ⟨?_, rfl, ?_⟩
    · rw [walkFrom_step_err fetch start r' db e hfe]
      rfl
    · rw [walkFetches_step_err fetch start r' e hfe]
      simp
  | succ d ih =>
    intro start db r hfe hok hlt
    obtain ⟨r', rfl⟩ : ∃ r', r = r' + 1 := ⟨r - 1, by omega⟩
    have h0 : fetchOk (fetch start) = true := hok start (by omega) (le_refl start)
    cases hfi : fetch start with
    | error e2 => rw [hfi] at h0; cases h0
    | ok b =>
      obtain ⟨e1, e2', e3⟩ :=
        ih (start + 1) (txnApply db (commitWrites b start)) r'
          (by rw [show start + 1 + d = start + (d + 1) from by omega]; exact hfe)
          (fun n hn hsn => hok n (by omega) (by omega))
          (by omega)
      rw [show start + 1 + d = start + (d + 1) from by omega] at e3
      refine ⟨?_, ?_, ?_⟩
      · rw [walkFrom_step_ok fetch start r' db b hfi, e1,
          walkFrom_step_ok fetch start d db b hfi]
      · rw [walkFrom_step_ok fetch start d db b hfi]
        exact e2'
      · rw [walkFetches_step_ok fetch start r' b hfi, e3, List.range'_succ]
        rw [List.cons_append]

/-- Claim C8: during the catch-up walk a fetch failure at block j aborts
the phase and surfaces the error, startup (main panics on a walkChain
error) aborts, block j is fetched exactly once (no internal retry, the
fetch sequence is the successful prefix followed by the single failing
fetch), and the store is exactly what the successful prefix committed, so
no pair is committed for the failing block. -/
theorem walk_fetch_failure_aborts (head0 : Nat)
    (fetch : Nat → Except FetchErr rpcBlock) (db0 : Store) (j : Nat)
    (e : FetchErr)
    (hj1 : startHeight db0 ≤ j) (hj2 : j < head0)
    (hbefore : ∀ n, n < j → startHeight db0 ≤ n → fetchOk (fetch n) = true)
    (hfail : fetch j = Except.error e) :
    (mainCatchUp head0 fetch db0).err = some e ∧
    mainStartupOk head0 fetch db0 = none ∧
    walkFetches fetch (startHeight db0) (head0 - startHeight db0) =
      List.range' (startHeight db0) (j - startHeight db0) ++ [j] ∧
    (walkFetches fetch (startHeight db0) (head0 - startHeight db0)).count j
      = 1 ∧
    (mainCatchUp head0 fetch db0).db =
      (walkFrom fetch (startHeight db0) (j - startHeight db0) db0).db ∧
    (walkFrom fetch (startHeight db0) (j - startHeight db0) db0).err =
      none := by
  have hd : startHeight db0 + (j - startHeight db0) = j := by omega
  obtain ⟨hmain, herr2, hfet⟩ :=
    walkFrom_error_at fetch e (j - startHeight db0) (startHeight db0) db0
      (head0 - startHeight db0)
      (by rw [hd]; exact hfail)
      (by intro n hn hsn; exact hbefore n (by omega) hsn)
      (by omega)
  rw [hd] at hfet
  refine ⟨?_, ?_, hfet, ?_, ?_, herr2⟩
  · unfold mainCatchUp
    rw [hmain]
  · unfold mainStartupOk mainCatchUp
    rw [hmain]
  · have hz : (List.range' (startHeight db0) (j - startHeight db0)).count j
        = 0 := by
      rw [List.count_eq_zero]
      intro hmem
      rw [List.mem_range'_1] at hmem
      omega
    rw [hfet, List.count_append, hz]
    simp
  · unfold mainCatchUp
    rw [hmain]

/-- Witness for claim C8: start 0, head 3, block 0 available, block 1
failing with a transport error. -/
theorem walk_fetch_failure_aborts_witness :
    (mainCatchUp 3 fetch8 []).err = some ⟨"boom"⟩ ∧
    mainStartupOk 3 fetch8 [] = none ∧
    walkFetches fetch8 (startHeight []) (3 - startHeight []) =
      List.range' (startHeight []) (1 - startHeight []) ++ [1] ∧
    (walkFetches fetch8 (startHeight []) (3 - startHeight [])).count 1 = 1 ∧
    (mainCatchUp 3 fetch8 []).db =
      (walkFrom fetch8 (startHeight []) (1 - startHeight []) []).db ∧
    (walkFrom fetch8 (startHeight []) (1 - startHeight []) []).err = none :=
  walk_fetch_failure_aborts 3 fetch8 [] 1 ⟨"boom"⟩ (by decide) (by decide)
    (by decide) (by decide)
